import Mathlib

/-!
Verification of the reciprocal-pair discovery algorithm of
`scripts/find_helmholtz_pairs.py`.

The float32 arithmetic of the script is embedded over the real numbers.
Vectors are rows of the numpy arrays; the per-view light data is a list of
lists of vectors.  Operations that can raise a Python exception are embedded
in `Except NpError`:
  * `NpError.valueError` models numpy's `ValueError` (the `np.asarray` call on
    ragged nested lists, and tuple unpacking of a shape with the wrong arity);
  * `NpError.indexError` models Python's `IndexError` (slicing an array of too
    low a dimension, and an out-of-range index into an axis).
-/

namespace Helmholtz

/-- A 3-D vector with real components, modelling one row along the last axis
of a numpy float32 array. -/
@[ext]
structure Vec3 where
  x : ℝ
  y : ℝ
  z : ℝ

/-- The zero vector, a degenerate (zero-length) direction. -/
def zeroVec : Vec3 := ⟨0, 0, 0⟩

/-- Componentwise scaling `c * v` of a vector by a scalar. -/
def vecScale (c : ℝ) (v : Vec3) : Vec3 := ⟨c * v.x, c * v.y, c * v.z⟩

/-- Dot product along the last axis: `(a * b).sum(-1)` in the script. -/
def dot (a b : Vec3) : ℝ := a.x * b.x + a.y * b.y + a.z * b.z

/-- Euclidean norm of one vector: `np.linalg.norm(v, axis=-1)`. -/
noncomputable def norm3 (v : Vec3) : ℝ := Real.sqrt (v.x ^ 2 + v.y ^ 2 + v.z ^ 2)

/-- Source `normalize`: divides each vector by its Euclidean norm, with the
divisor replaced by 1 exactly where the norm is zero (`n[n == 0] = 1`). -/
noncomputable def normalize (v : Vec3) : Vec3 :=
  let n := norm3 v
  let d := if n = 0 then 1 else n
  ⟨v.x / d, v.y / d, v.z / d⟩

/-- Source `np.clip(x, lo, hi)`, which numpy documents as
`minimum(hi, maximum(lo, x))`. -/
noncomputable def clip (x lo hi : ℝ) : ℝ := min hi (max lo x)

/-- Source `np.rad2deg`. -/
noncomputable def rad2deg (x : ℝ) : ℝ := x * 180 / Real.pi

/-- Source `angle_between`: re-normalizes both arguments, clamps the dot
product to `[-1, 1]` and converts the arc cosine to degrees. -/
noncomputable def angle_between (a b : Vec3) : ℝ :=
  rad2deg (Real.arccos (clip (dot (normalize a) (normalize b)) (-1) 1))

theorem norm3_nonneg (v : Vec3) : 0 ≤ norm3 v := Real.sqrt_nonneg _

theorem norm3_eq_zero {v : Vec3} : norm3 v = 0 ↔ v = zeroVec := by
  constructor
  · intro h
    have h0 : (0:ℝ) ≤ v.x ^ 2 + v.y ^ 2 + v.z ^ 2 := by positivity
    have hsum : v.x ^ 2 + v.y ^ 2 + v.z ^ 2 = 0 :=
      (Real.sqrt_eq_zero h0).mp h
    have hx : v.x = 0 := by nlinarith [sq_nonneg v.x, sq_nonneg v.y, sq_nonneg v.z]
    have hy : v.y = 0 := by nlinarith [sq_nonneg v.x, sq_nonneg v.y, sq_nonneg v.z]
    have hz : v.z = 0 := by nlinarith [sq_nonneg v.x, sq_nonneg v.y, sq_nonneg v.z]
    cases v
    simp_all [zeroVec]
  · rintro rfl
    simp [norm3, zeroVec]

theorem normalize_of_norm_eq_zero {v : Vec3} (h : norm3 v = 0) : normalize v = v := by
  simp [normalize, h]

theorem normalize_zeroVec : normalize zeroVec = zeroVec :=
  normalize_of_norm_eq_zero (norm3_eq_zero.mpr rfl)

theorem normalize_of_norm_ne_zero {v : Vec3} (h : norm3 v ≠ 0) :
    normalize v = vecScale (norm3 v)⁻¹ v := by
  simp only [normalize, vecScale, if_neg h]
  refine Vec3.ext ?_ ?_ ?_ <;> simp [div_eq_inv_mul]

theorem normalize_of_norm_one {v : Vec3} (h : norm3 v = 1) : normalize v = v := by
  rw [normalize_of_norm_ne_zero (h ▸ one_ne_zero), h]
  cases v
  simp [vecScale]

theorem dot_zeroVec_left (b : Vec3) : dot zeroVec b = 0 := by
  simp [dot, zeroVec]

/-- A camera-to-world pose, a 4 by 4 real matrix. -/
def Pose := Fin 4 → Fin 4 → ℝ

/-- Errors raised by the numpy operations the script performs.
`valueError` models `ValueError` (ragged input to `np.asarray`, and shape
unpacking of the wrong arity); `indexError` models `IndexError` (indexing or
slicing past the available dimensions or bounds). -/
inductive NpError where
  | valueError : NpError
  | indexError : NpError
deriving DecidableEq

/-- The `light_direction` entry of `params.json`: one shared set of light
directions when `light_is_same` is true, otherwise one set per view.  The
script branches on the `light_is_same` flag and reads the data accordingly,
so the flag and the payload are coupled here. -/
inductive LightDirData where
  | shared (dirs : List Vec3) : LightDirData
  | perView (dirs : List (List Vec3)) : LightDirData

/-- The calibration record `para` consumed by `find_pairs` (the fields the
search reads). -/
structure Para where
  n_view : ℕ
  pose_c2w : List Pose
  light_direction : LightDirData

/-- The `light_is_same` flag of the record. -/
def Para.light_is_same (para : Para) : Bool :=
  match para.light_direction with
  | .shared _ => true
  | .perView _ => false

/-- Source `get_cam_dirs`: `-poses[:, :3, 2]` normalized per row.  On an
empty pose list `np.asarray` yields a 1-dimensional array of shape `(0,)`,
and the triple slice raises `IndexError` (too many indices). -/
noncomputable def get_cam_dirs (poses : List Pose) : Except NpError (List Vec3) :=
  match poses with
  | [] => .error .indexError
  | _ :: _ => .ok (poses.map fun p => normalize ⟨-(p 0 2), -(p 1 2), -(p 2 2)⟩)

/-- Source `get_light_dirs`.  In the shared case the set is broadcast to
`(n_view,) + dirs.shape` and then normalized per row; in the per-view case
`np.asarray(..., dtype=np.float32)` raises `ValueError` on ragged nested
lists (rows of differing lengths), otherwise each row is normalized. -/
noncomputable def get_light_dirs (para : Para) : Except NpError (List (List Vec3)) :=
  match para.light_direction with
  | .shared dirs =>
      .ok ((List.replicate para.n_view dirs).map fun row => row.map normalize)
  | .perView dirs =>
      if dirs.all fun row => row.length = (dirs.headD []).length then
        .ok (dirs.map fun row => row.map normalize)
      else
        .error .valueError

/-- Source `n_view, n_light, _ = light_dirs.shape`.  A numpy array built from
an empty outer list has shape `(0,)` and one built from nonempty rows of
length 0 has shape `(n, 0)`; in both cases unpacking into three names raises
`ValueError`.  Only a genuinely 3-dimensional `(n_view, n_light, 3)` array
unpacks. -/
def shape3 (xs : List (List Vec3)) : Except NpError (ℕ × ℕ) :=
  match xs with
  | [] => .error .valueError
  | row :: _ => if row.length = 0 then .error .valueError else .ok (xs.length, row.length)

/-- One iteration of the inner loop body: the four indexed reads
`light_dirs[i, li]`, `cam_dirs[j]`, `light_dirs[j, lj]`, `cam_dirs[i]` (an
out-of-range index raises `IndexError`), then the two angle tests
`ang1 <= thresh and ang2 <= thresh`. -/
noncomputable def checkPair (cam_dirs : List Vec3) (light_dirs : List (List Vec3))
    (thresh : ℝ) (i li j lj : ℕ) : Except NpError Bool :=
  match (light_dirs[i]?.bind fun row => row[li]?), cam_dirs[j]?,
      (light_dirs[j]?.bind fun row => row[lj]?), cam_dirs[i]? with
  | some ldi, some cdj, some ldj, some cdi =>
      .ok (decide (angle_between ldi cdj ≤ thresh ∧ angle_between ldj cdi ≤ thresh))
  | _, _, _, _ => .error .indexError

/-- The index tuples `((i, li), (j, lj))` visited by the four nested loops,
in loop order: `i` in `range(n_view)`, `j` in `range(i + 1, n_view)`, `li` in
`range(n_light)`, `lj` in `range(n_light)`. -/
def pairIndices (n_view n_light : ℕ) : List ((ℕ × ℕ) × (ℕ × ℕ)) :=
  (List.range n_view).flatMap fun i =>
    (List.range' (i + 1) (n_view - (i + 1))).flatMap fun j =>
      (List.range n_light).flatMap fun li =>
        (List.range n_light).map fun lj => ((i, li), (j, lj))

/-- The nested loops of `find_pairs`, run over the pre-listed index tuples:
each accepted tuple is kept, in visiting order, and a raised exception
discards any partial result. -/
noncomputable def searchLoop (cam_dirs : List Vec3) (light_dirs : List (List Vec3))
    (thresh : ℝ) : List ((ℕ × ℕ) × (ℕ × ℕ)) → Except NpError (List ((ℕ × ℕ) × (ℕ × ℕ)))
  | [] => .ok []
  | idx :: rest =>
    match checkPair cam_dirs light_dirs thresh idx.1.1 idx.1.2 idx.2.1 idx.2.2 with
    | .error e => .error e
    | .ok keep =>
      match searchLoop cam_dirs light_dirs thresh rest with
      | .error e => .error e
      | .ok tail => .ok (if keep then idx :: tail else tail)

/-- Source `find_pairs`: camera directions, resolved light directions, shape
unpacking, then the quadruple loop collecting accepted pairs. -/
noncomputable def find_pairs (para : Para) (thresh : ℝ) :
    Except NpError (List ((ℕ × ℕ) × (ℕ × ℕ))) :=
  match get_cam_dirs para.pose_c2w with
  | .error e => .error e
  | .ok cam_dirs =>
    match get_light_dirs para with
    | .error e => .error e
    | .ok light_dirs =>
      match shape3 light_dirs with
      | .error e => .error e
      | .ok (n_view, n_light) =>
          searchLoop cam_dirs light_dirs thresh (pairIndices n_view n_light)

/-- Whether the loop body accepts the index tuple `idx` (false as well when
the body would raise). -/
noncomputable def acceptB (cam_dirs : List Vec3) (light_dirs : List (List Vec3))
    (thresh : ℝ) (idx : (ℕ × ℕ) × (ℕ × ℕ)) : Bool :=
  match checkPair cam_dirs light_dirs thresh idx.1.1 idx.1.2 idx.2.1 idx.2.2 with
  | .ok b => b
  | .error _ => false

/-- Strict lexicographic order on the index tuples `((i, li), (j, lj))` by
the key `(i, j, li, lj)`. -/
def keyLT (a b : (ℕ × ℕ) × (ℕ × ℕ)) : Prop :=
  a.1.1 < b.1.1 ∨ (a.1.1 = b.1.1 ∧ (a.2.1 < b.2.1 ∨ (a.2.1 = b.2.1 ∧
    (a.1.2 < b.1.2 ∨ (a.1.2 = b.1.2 ∧ a.2.2 < b.2.2)))))

theorem mem_pairIndices {nv nl i li j lj : ℕ} :
    ((i, li), (j, lj)) ∈ pairIndices nv nl ↔ i < j ∧ j < nv ∧ li < nl ∧ lj < nl := by
  simp only [pairIndices, List.mem_flatMap, List.mem_map, List.mem_range, List.mem_range']
  constructor
  · rintro ⟨i1, hi1, j1, ⟨k, hk, rfl⟩, li1, hli1, lj1, hlj1, heq⟩
    obtain ⟨⟨h1, h2⟩, h3, h4⟩ := by
      simpa [Prod.ext_iff] using heq
    subst h1; subst h2; subst h3; subst h4
    omega
  · rintro ⟨hij, hj, hli, hlj⟩
    exact ⟨i, by omega, j, ⟨j - (i + 1), by omega, by omega⟩, li, hli, lj, hlj, rfl⟩

theorem pairwise_pairIndices (nv nl : ℕ) : (pairIndices nv nl).Pairwise keyLT := by
  unfold pairIndices
  rw [List.pairwise_flatMap]
  refine ⟨fun i _ => ?_, ?_⟩
  · rw [List.pairwise_flatMap]
    refine ⟨fun j _ => ?_, ?_⟩
    · rw [List.pairwise_flatMap]
      refine ⟨fun li _ => ?_, ?_⟩
      · rw [List.pairwise_map]
        exact (List.pairwise_lt_range nl).imp fun h =>
          Or.inr ⟨rfl, Or.inr ⟨rfl, Or.inr ⟨rfl, h⟩⟩⟩
      · refine (List.pairwise_lt_range nl).imp ?_
        intro li1 li2 h x hx y hy
        simp only [List.mem_map, List.mem_range] at hx hy
        obtain ⟨lj1, _, rfl⟩ := hx
        obtain ⟨lj2, _, rfl⟩ := hy
        exact Or.inr ⟨rfl, Or.inr ⟨rfl, Or.inl h⟩⟩
    · refine (List.pairwise_lt_range' (i + 1) (nv - (i + 1))).imp ?_
      intro j1 j2 h x hx y hy
      simp only [List.mem_flatMap, List.mem_map, List.mem_range] at hx hy
      obtain ⟨li1, _, lj1, _, rfl⟩ := hx
      obtain ⟨li2, _, lj2, _, rfl⟩ := hy
      exact Or.inr ⟨rfl, Or.inl h⟩
  · refine (List.pairwise_lt_range nv).imp ?_
    intro i1 i2 h x hx y hy
    simp only [List.mem_flatMap, List.mem_map, List.mem_range, List.mem_range'] at hx hy
    obtain ⟨j1, _, li1, _, lj1, _, rfl⟩ := hx
    obtain ⟨j2, _, li2, _, lj2, _, rfl⟩ := hy
    exact Or.inl h

theorem checkPair_isOk_or_indexError (cd : List Vec3) (ld : List (List Vec3))
    (t : ℝ) (i li j lj : ℕ) :
    (∃ b, checkPair cd ld t i li j lj = .ok b) ∨
      checkPair cd ld t i li j lj = .error .indexError := by
  unfold checkPair
  rcases ld[i]?.bind fun row => row[li]? with _ | ldi <;>
    rcases cd[j]? with _ | cdj <;>
      rcases ld[j]?.bind fun row => row[lj]? with _ | ldj <;>
        rcases cd[i]? with _ | cdi <;> simp

theorem checkPair_ok_iff {cd : List Vec3} {ld : List (List Vec3)}
    {t : ℝ} {i li j lj : ℕ} {b : Bool} :
    checkPair cd ld t i li j lj = .ok b ↔
      ∃ ldi cdj ldj cdi,
        (ld[i]?.bind fun row => row[li]?) = some ldi ∧ cd[j]? = some cdj ∧
        (ld[j]?.bind fun row => row[lj]?) = some ldj ∧ cd[i]? = some cdi ∧
        b = decide (angle_between ldi cdj ≤ t ∧ angle_between ldj cdi ≤ t) := by
  unfold checkPair
  rcases h1 : ld[i]?.bind fun row => row[li]? with _ | ldi <;>
    rcases h2 : cd[j]? with _ | cdj <;>
      rcases h3 : ld[j]?.bind fun row => row[lj]? with _ | ldj <;>
        rcases h4 : cd[i]? with _ | cdi <;>
          simp [eq_comm]

theorem searchLoop_eq_ok {cd : List Vec3} {ld : List (List Vec3)} {t : ℝ} :
    ∀ {idxs ps}, searchLoop cd ld t idxs = .ok ps →
      ps = idxs.filter (acceptB cd ld t) ∧
      ∀ idx ∈ idxs, ∃ b, checkPair cd ld t idx.1.1 idx.1.2 idx.2.1 idx.2.2 = .ok b := by
  intro idxs
  induction idxs with
  | nil => intro ps h; simp only [searchLoop, Except.ok.injEq] at h; simp [← h]
  | cons idx rest ih =>
    intro ps h
    rw [searchLoop] at h
    rcases hc : checkPair cd ld t idx.1.1 idx.1.2 idx.2.1 idx.2.2 with e | keep
    · rw [hc] at h; exact absurd h (by simp)
    · rw [hc] at h
      rcases hr : searchLoop cd ld t rest with e | tail
      · rw [hr] at h; exact absurd h (by simp)
      · rw [hr] at h
        obtain ⟨htail, hall⟩ := ih hr
        have hps : ps = if keep then idx :: tail else tail := by
          simpa [eq_comm] using h
        refine ⟨?_, ?_⟩
        · rw [hps, htail, List.filter_cons]
          have : acceptB cd ld t idx = keep := by simp [acceptB, hc]
          rw [this]
        · intro idx2 hmem
          rcases List.mem_cons.mp hmem with rfl | hmem2
          · exact ⟨keep, hc⟩
          · exact hall idx2 hmem2

theorem searchLoop_ok_of_all {cd : List Vec3} {ld : List (List Vec3)} {t : ℝ} :
    ∀ {idxs}, (∀ idx ∈ idxs, ∃ b, checkPair cd ld t idx.1.1 idx.1.2 idx.2.1 idx.2.2 = .ok b) →
      searchLoop cd ld t idxs = .ok (idxs.filter (acceptB cd ld t)) := by
  intro idxs
  induction idxs with
  | nil => intro _; simp [searchLoop]
  | cons idx rest ih =>
    intro h
    obtain ⟨b, hb⟩ := h idx (List.mem_cons_self idx rest)
    rw [searchLoop, hb, ih fun idx2 hm => h idx2 (List.mem_cons_of_mem idx hm)]
    have : acceptB cd ld t idx = b := by simp [acceptB, hb]
    rw [List.filter_cons, this]

theorem searchLoop_error_of_exists {cd : List Vec3} {ld : List (List Vec3)} {t : ℝ} :
    ∀ {idxs}, (∃ idx ∈ idxs, checkPair cd ld t idx.1.1 idx.1.2 idx.2.1 idx.2.2 =
        .error .indexError) →
      searchLoop cd ld t idxs = .error .indexError := by
  intro idxs
  induction idxs with
  | nil => rintro ⟨idx, hm, _⟩; exact absurd hm (List.not_mem_nil idx)
  | cons idx rest ih =>
    rintro ⟨idx2, hm, herr⟩
    rcases hc : checkPair cd ld t idx.1.1 idx.1.2 idx.2.1 idx.2.2 with e | keep
    · rw [searchLoop, hc]
      rcases List.mem_cons.mp hm with rfl | hm2
      · rw [hc] at herr
        simpa using herr
      · rcases checkPair_isOk_or_indexError cd ld t idx.1.1 idx.1.2 idx.2.1 idx.2.2 with
          ⟨b, hb⟩ | hidx
        · rw [hb] at hc; exact absurd hc (by simp)
        · rw [hidx] at hc
          simpa [eq_comm] using hc
    · rw [searchLoop, hc]
      have hrest : searchLoop cd ld t rest = .error .indexError := by
        rcases List.mem_cons.mp hm with rfl | hm2
        · rw [hc] at herr; exact absurd herr (by simp)
        · exact ih ⟨idx2, hm2, herr⟩
      rw [hrest]

theorem find_pairs_eq {para : Para} {t : ℝ} {cd : List Vec3}
    {ld : List (List Vec3)} {nv nl : ℕ}
    (hcd : get_cam_dirs para.pose_c2w = .ok cd)
    (hld : get_light_dirs para = .ok ld)
    (hs : shape3 ld = .ok (nv, nl)) :
    find_pairs para t = searchLoop cd ld t (pairIndices nv nl) := by
  unfold find_pairs
  simp only [hcd, hld, hs]

theorem get_light_dirs_uniform {para : Para} {ld : List (List Vec3)}
    (h : get_light_dirs para = .ok ld) :
    ∀ r ∈ ld, ∀ s ∈ ld, r.length = s.length := by
  rcases hdata : para.light_direction with dirs | dirs
  · have h2 : List.replicate para.n_view (dirs.map normalize) = ld := by
      unfold get_light_dirs at h
      rw [hdata] at h
      simpa using h
    subst h2
    intro r hr s hs
    simp only [List.mem_replicate] at hr hs
    obtain ⟨_, rfl⟩ := hr
    obtain ⟨_, rfl⟩ := hs
    rfl
  · by_cases hall : ∀ x ∈ dirs, x.length = (dirs.head?.getD []).length
    · have hcond : (dirs.all fun row => row.length = (dirs.headD []).length) = true := by
        simp only [List.all_eq_true, decide_eq_true_eq]
        intro x hx
        simpa using hall x hx
      have h2 : dirs.map (fun row => row.map normalize) = ld := by
        unfold get_light_dirs at h
        rw [hdata] at h
        simp only [hcond] at h
        simpa using h
      subst h2
      intro r hr s hs
      simp only [List.mem_map] at hr hs
      obtain ⟨r0, hr0, rfl⟩ := hr
      obtain ⟨s0, hs0, rfl⟩ := hs
      simp [hall r0 hr0, hall s0 hs0]
    · exfalso
      unfold get_light_dirs at h
      rw [hdata] at h
      simp [hall] at h

theorem shape3_ok {xs : List (List Vec3)} {nv nl : ℕ} (h : shape3 xs = .ok (nv, nl)) :
    xs.length = nv ∧ 0 < nv ∧ 0 < nl ∧ ∃ r, xs.head? = some r ∧ r.length = nl := by
  rcases xs with _ | ⟨row, rest⟩
  · simp [shape3] at h
  · by_cases hrow : row.length = 0
    · simp [shape3, hrow] at h
    · have h2 : rest.length + 1 = nv ∧ row.length = nl := by
        simpa [shape3, hrow, Prod.ext_iff] using h
      obtain ⟨h1, h2⟩ := h2
      exact ⟨by simpa using h1, by omega, by omega, row, rfl, h2⟩

theorem light_rows_length {para : Para} {ld : List (List Vec3)} {nv nl : ℕ}
    (hld : get_light_dirs para = .ok ld) (hs : shape3 ld = .ok (nv, nl)) :
    ld.length = nv ∧ ∀ r ∈ ld, r.length = nl := by
  obtain ⟨hlen, _, _, r, hhead, hrlen⟩ := shape3_ok hs
  refine ⟨hlen, fun s hsmem => ?_⟩
  have hrmem : r ∈ ld := List.mem_of_mem_head? hhead
  have := get_light_dirs_uniform hld s hsmem r hrmem
  omega

theorem checkPair_of_inbounds {cd : List Vec3} {ld : List (List Vec3)} {t : ℝ}
    {i li j lj : ℕ} {nv nl : ℕ}
    (hcd : nv ≤ cd.length) (hld : ld.length = nv) (hrows : ∀ r ∈ ld, r.length = nl)
    (hi : i < nv) (hj : j < nv) (hli : li < nl) (hlj : lj < nl) :
    checkPair cd ld t i li j lj =
      .ok (decide (angle_between ((ld.getD i []).getD li zeroVec) (cd.getD j zeroVec) ≤ t ∧
        angle_between ((ld.getD j []).getD lj zeroVec) (cd.getD i zeroVec) ≤ t)) := by
  have hi' : i < ld.length := by omega
  have hj' : j < ld.length := by omega
  have hic : i < cd.length := by omega
  have hjc : j < cd.length := by omega
  have hrowi : ld[i]? = some ld[i] := List.getElem?_eq_getElem hi'
  have hrowj : ld[j]? = some ld[j] := List.getElem?_eq_getElem hj'
  have hli' : li < ld[i].length := by
    rw [hrows ld[i] (List.getElem_mem hi')]; exact hli
  have hlj' : lj < ld[j].length := by
    rw [hrows ld[j] (List.getElem_mem hj')]; exact hlj
  have g1 : ld.getD i [] = ld[i] := by
    rw [List.getD_eq_getElem?_getD, hrowi, Option.getD_some]
  have g2 : ld.getD j [] = ld[j] := by
    rw [List.getD_eq_getElem?_getD, hrowj, Option.getD_some]
  have g3 : cd.getD i zeroVec = cd[i] := by
    rw [List.getD_eq_getElem?_getD, List.getElem?_eq_getElem hic, Option.getD_some]
  have g4 : cd.getD j zeroVec = cd[j] := by
    rw [List.getD_eq_getElem?_getD, List.getElem?_eq_getElem hjc, Option.getD_some]
  have g5 : (ld[i]).getD li zeroVec = ld[i][li] := by
    rw [List.getD_eq_getElem?_getD, List.getElem?_eq_getElem hli', Option.getD_some]
  have g6 : (ld[j]).getD lj zeroVec = ld[j][lj] := by
    rw [List.getD_eq_getElem?_getD, List.getElem?_eq_getElem hlj', Option.getD_some]
  rw [checkPair, hrowi, hrowj, List.getElem?_eq_getElem hic, List.getElem?_eq_getElem hjc,
    g1, g2, g3, g4]
  simp only [Option.some_bind, List.getElem?_eq_getElem hli', List.getElem?_eq_getElem hlj',
    g5, g6]

theorem clip_one : clip 1 (-1) 1 = 1 := by
  unfold clip
  norm_num

theorem clip_zero : clip 0 (-1) 1 = 0 := by
  unfold clip
  norm_num

theorem rad2deg_zero : rad2deg 0 = 0 := by
  unfold rad2deg
  simp

theorem rad2deg_pi_div_two : rad2deg (Real.pi / 2) = 90 := by
  unfold rad2deg
  field_simp
  ring

/-- The concrete world-space direction `(0, 0, -1)` used in the examples. -/
def dirZ : Vec3 := ⟨0, 0, -1⟩

theorem norm3_dirZ : norm3 dirZ = 1 := by
  unfold norm3 dirZ
  norm_num

theorem normalize_dirZ : normalize dirZ = dirZ := normalize_of_norm_one norm3_dirZ

theorem angle_dirZ : angle_between dirZ dirZ = 0 := by
  unfold angle_between
  rw [normalize_dirZ]
  have hdot : dot dirZ dirZ = 1 := by
    unfold dot dirZ
    norm_num
  rw [hdot, clip_one, Real.arccos_one, rad2deg_zero]

/-- The identity camera-to-world pose. -/
def pose_id : Pose := fun i j => if i = j then 1 else 0

/-- A two-view calibration set: two identity poses and one shared light along
`(0, 0, -1)`. -/
def para2 : Para := ⟨2, [pose_id, pose_id], .shared [dirZ]⟩

theorem cam_dir_pose_id : normalize ⟨-(pose_id 0 2), -(pose_id 1 2), -(pose_id 2 2)⟩ = dirZ := by
  have h1 : pose_id 0 2 = 0 := rfl
  have h2 : pose_id 1 2 = 0 := rfl
  have h3 : pose_id 2 2 = 1 := rfl
  rw [h1, h2, h3]
  have h4 : (⟨-(0:ℝ), -(0:ℝ), -(1:ℝ)⟩ : Vec3) = dirZ := by
    unfold dirZ
    norm_num
  rw [h4, normalize_dirZ]

theorem get_cam_dirs_para2 : get_cam_dirs para2.pose_c2w = .ok [dirZ, dirZ] := by
  show get_cam_dirs [pose_id, pose_id] = .ok [dirZ, dirZ]
  simp [get_cam_dirs, cam_dir_pose_id]

theorem get_light_dirs_para2 : get_light_dirs para2 = .ok [[dirZ], [dirZ]] := by
  show get_light_dirs ⟨2, [pose_id, pose_id], .shared [dirZ]⟩ = .ok [[dirZ], [dirZ]]
  simp [get_light_dirs, normalize_dirZ, List.replicate]

theorem shape3_para2 : shape3 [[dirZ], [dirZ]] = .ok (2, 1) := rfl

theorem pairIndices_two_one : pairIndices 2 1 = [((0, 0), (1, 0))] := rfl

theorem checkPair_para2 {t : ℝ} (h : 0 ≤ t) :
    checkPair [dirZ, dirZ] [[dirZ], [dirZ]] t 0 0 1 0 = .ok true := by
  have hl1 : (([[dirZ], [dirZ]] : List (List Vec3))[0]?.bind fun row => row[0]?) = some dirZ := rfl
  have hl2 : (([[dirZ], [dirZ]] : List (List Vec3))[1]?.bind fun row => row[0]?) = some dirZ := rfl
  have hc1 : ([dirZ, dirZ] : List Vec3)[1]? = some dirZ := rfl
  have hc2 : ([dirZ, dirZ] : List Vec3)[0]? = some dirZ := rfl
  rw [checkPair, hl1, hl2, hc1, hc2]
  simp only [angle_dirZ, Except.ok.injEq, decide_eq_true_eq]
  exact ⟨h, h⟩

theorem find_pairs_para2 {t : ℝ} (h : 0 ≤ t) :
    find_pairs para2 t = .ok [((0, 0), (1, 0))] := by
  rw [find_pairs_eq get_cam_dirs_para2 get_light_dirs_para2 shape3_para2,
    pairIndices_two_one, searchLoop, checkPair_para2 h, searchLoop]
  simp

theorem bind_some_getD {ld : List (List Vec3)} {i li : ℕ} {v : Vec3}
    (h : (ld[i]?.bind fun row => row[li]?) = some v) :
    (ld.getD i []).getD li zeroVec = v := by
  rcases hrow : ld[i]? with _ | row
  · rw [hrow] at h
    simp at h
  · rw [hrow] at h
    simp only [Option.some_bind] at h
    have hro : ld.getD i [] = row := by
      rw [List.getD_eq_getElem?_getD, hrow, Option.getD_some]
    rw [hro, List.getD_eq_getElem?_getD, h, Option.getD_some]

theorem getElem?_some_getD {cd : List Vec3} {j : ℕ} {v : Vec3} (h : cd[j]? = some v) :
    cd.getD j zeroVec = v := by
  rw [List.getD_eq_getElem?_getD, h, Option.getD_some]

theorem find_pairs_ok_inv {para : Para} {t : ℝ} {ps : List ((ℕ × ℕ) × (ℕ × ℕ))}
    (h : find_pairs para t = .ok ps) :
    ∃ cd ld nv nl, get_cam_dirs para.pose_c2w = .ok cd ∧ get_light_dirs para = .ok ld ∧
      shape3 ld = .ok (nv, nl) ∧ searchLoop cd ld t (pairIndices nv nl) = .ok ps := by
  unfold find_pairs at h
  rcases h1 : get_cam_dirs para.pose_c2w with e | cd <;> simp only [h1] at h
  · exact absurd h (by simp)
  · rcases h2 : get_light_dirs para with e2 | ld <;> simp only [h2] at h
    · exact absurd h (by simp)
    · rcases h3 : shape3 ld with e3 | ⟨nv, nl⟩ <;> simp only [h3] at h
      · exact absurd h (by simp)
      · exact ⟨cd, ld, nv, nl, rfl, rfl, h3, h⟩

theorem checkPair_error_of_cam_oob {cd : List Vec3} {ld : List (List Vec3)}
    {t : ℝ} {i li j lj : ℕ} (h : cd[j]? = none) :
    checkPair cd ld t i li j lj = .error .indexError := by
  rw [checkPair, h]
  rcases ld[i]?.bind fun row => row[li]? with _ | ldi <;>
    rcases ld[j]?.bind fun row => row[lj]? with _ | ldj <;>
      rcases cd[i]? with _ | cdi <;> rfl

theorem vecScale_zeroVec (c : ℝ) : vecScale c zeroVec = zeroVec := by
  unfold vecScale zeroVec
  norm_num

theorem norm3_vecScale {c : ℝ} (hc : 0 ≤ c) (v : Vec3) :
    norm3 (vecScale c v) = c * norm3 v := by
  unfold norm3 vecScale
  simp only
  rw [show (c * v.x) ^ 2 + (c * v.y) ^ 2 + (c * v.z) ^ 2 =
    c ^ 2 * (v.x ^ 2 + v.y ^ 2 + v.z ^ 2) by ring]
  rw [Real.sqrt_mul (sq_nonneg c), Real.sqrt_sq hc]

theorem normalize_vecScale {c : ℝ} (hc : 0 < c) (v : Vec3) :
    normalize (vecScale c v) = normalize v := by
  by_cases h : norm3 v = 0
  · rw [norm3_eq_zero.mp h, vecScale_zeroVec]
  · have hcs : norm3 (vecScale c v) = c * norm3 v := norm3_vecScale hc.le v
    have hne : norm3 (vecScale c v) ≠ 0 := by
      rw [hcs]
      exact mul_ne_zero hc.ne' h
    rw [normalize_of_norm_ne_zero hne, normalize_of_norm_ne_zero h, hcs]
    unfold vecScale
    refine Vec3.ext ?_ ?_ ?_ <;> (simp only; field_simp; ring)

theorem pairIndices_one (nl : ℕ) : pairIndices 1 nl = [] := rfl

/-- Claim C1: for every calibration set and threshold, the reciprocal-pair
search returns exactly those index tuples `((i, li), (j, lj))` with `i < j`
(and the indices within the resolved shapes) for which both
`ang1 = angle_between(lightDirs[i][li], camDirs[j]) <= thresh` and
`ang2 = angle_between(lightDirs[j][lj], camDirs[i]) <= thresh`, where
`camDirs` are the normalized camera viewing directions and `lightDirs` the
resolved per-view normalized light directions. -/
theorem find_pairs_mem_iff (para : Para) (t : ℝ) (ps : List ((ℕ × ℕ) × (ℕ × ℕ)))
    (cd : List Vec3) (ld : List (List Vec3)) (nv nl : ℕ)
    (hcd : get_cam_dirs para.pose_c2w = .ok cd)
    (hld : get_light_dirs para = .ok ld)
    (hs : shape3 ld = .ok (nv, nl))
    (hps : find_pairs para t = .ok ps)
    (i li j lj : ℕ) :
    ((i, li), (j, lj)) ∈ ps ↔
      i < j ∧ j < nv ∧ li < nl ∧ lj < nl ∧
      angle_between ((ld.getD i []).getD li zeroVec) (cd.getD j zeroVec) ≤ t ∧
      angle_between ((ld.getD j []).getD lj zeroVec) (cd.getD i zeroVec) ≤ t := by
  rw [find_pairs_eq hcd hld hs] at hps
  obtain ⟨hfil, hall⟩ := searchLoop_eq_ok hps
  subst hfil
  rw [List.mem_filter, mem_pairIndices]
  constructor
  · rintro ⟨⟨hij, hj, hli, hlj⟩, hacc⟩
    obtain ⟨b, hb⟩ := hall ((i, li), (j, lj)) (mem_pairIndices.mpr ⟨hij, hj, hli, hlj⟩)
    have hbt : b = true := by simpa [acceptB, hb] using hacc
    obtain ⟨ldi, cdj, ldj, cdi, e1, e2, e3, e4, hbeq⟩ := checkPair_ok_iff.mp hb
    rw [hbt] at hbeq
    have hang := of_decide_eq_true hbeq.symm
    rw [bind_some_getD e1, bind_some_getD e3, getElem?_some_getD e2, getElem?_some_getD e4]
    exact ⟨hij, hj, hli, hlj, hang.1, hang.2⟩
  · rintro ⟨hij, hj, hli, hlj, ha1, ha2⟩
    refine ⟨⟨hij, hj, hli, hlj⟩, ?_⟩
    obtain ⟨b, hb⟩ := hall ((i, li), (j, lj)) (mem_pairIndices.mpr ⟨hij, hj, hli, hlj⟩)
    obtain ⟨ldi, cdj, ldj, cdi, e1, e2, e3, e4, hbeq⟩ := checkPair_ok_iff.mp hb
    rw [bind_some_getD e1, getElem?_some_getD e2] at ha1
    rw [bind_some_getD e3, getElem?_some_getD e4] at ha2
    have hbt : b = true := by
      rw [hbeq]
      exact decide_eq_true ⟨ha1, ha2⟩
    simp [acceptB, hb, hbt]

theorem find_pairs_mem_iff_witness :
    ((((0, 0), (1, 0)) ∈ [((0, 0), (1, 0))]) ↔
      0 < 1 ∧ 1 < 2 ∧ 0 < 1 ∧ 0 < 1 ∧
      angle_between ((([[dirZ], [dirZ]] : List (List Vec3)).getD 0 []).getD 0 zeroVec)
        (([dirZ, dirZ] : List Vec3).getD 1 zeroVec) ≤ (31 / 2 : ℝ) ∧
      angle_between ((([[dirZ], [dirZ]] : List (List Vec3)).getD 1 []).getD 0 zeroVec)
        (([dirZ, dirZ] : List Vec3).getD 0 zeroVec) ≤ (31 / 2 : ℝ)) :=
  find_pairs_mem_iff para2 (31 / 2) [((0, 0), (1, 0))] [dirZ, dirZ] [[dirZ], [dirZ]] 2 1
    get_cam_dirs_para2 get_light_dirs_para2 shape3_para2
    (find_pairs_para2 (by norm_num)) 0 0 1 0

/-- Claim C2: the returned sequence is ordered lexicographically by the key
`(i, j, li, lj)` (outer `i` ascending, then `j` ascending with `j > i`, then
`li`, then `lj`), and every returned pair has its first view index strictly
smaller than its second view index. -/
theorem find_pairs_sorted (para : Para) (t : ℝ) (ps : List ((ℕ × ℕ) × (ℕ × ℕ)))
    (hps : find_pairs para t = .ok ps) :
    ps.Pairwise keyLT ∧ ∀ p ∈ ps, p.1.1 < p.2.1 := by
  obtain ⟨cd, ld, nv, nl, hcd, hld, hs, hloop⟩ := find_pairs_ok_inv hps
  obtain ⟨hfil, _⟩ := searchLoop_eq_ok hloop
  subst hfil
  refine ⟨(pairwise_pairIndices nv nl).filter _, ?_⟩
  intro p hp
  have hmem := (List.mem_filter.mp hp).1
  rcases p with ⟨⟨i, li⟩, ⟨j, lj⟩⟩
  exact (mem_pairIndices.mp hmem).1

theorem find_pairs_sorted_witness :
    ([((0, 0), (1, 0))] : List ((ℕ × ℕ) × (ℕ × ℕ))).Pairwise keyLT ∧
      ∀ p ∈ ([((0, 0), (1, 0))] : List ((ℕ × ℕ) × (ℕ × ℕ))), p.1.1 < p.2.1 :=
  find_pairs_sorted para2 (31 / 2) [((0, 0), (1, 0))] (find_pairs_para2 (by norm_num))

/-- Claim C5: `normalize` divides by the per-vector Euclidean norm except
where that norm is exactly zero, in which case the divisor 1 is substituted,
so the zero vector normalizes to the zero vector; over the reals every input
yields a well-defined (finite) result, so no division-by-zero fault occurs. -/
theorem normalize_guard_spec (v : Vec3) :
    (norm3 v ≠ 0 → normalize v = vecScale (norm3 v)⁻¹ v) ∧
    (norm3 v = 0 → normalize v = v) ∧
    normalize zeroVec = zeroVec :=
  ⟨fun h => normalize_of_norm_ne_zero h, fun h => normalize_of_norm_eq_zero h,
    normalize_zeroVec⟩

theorem norm3_v345 : norm3 ⟨3, 0, 4⟩ = 5 := by
  unfold norm3
  rw [show ((3:ℝ) ^ 2 + (0:ℝ) ^ 2 + (4:ℝ) ^ 2) = 5 ^ 2 by norm_num]
  exact Real.sqrt_sq (by norm_num)

theorem normalize_guard_spec_witness :
    (norm3 ⟨3, 0, 4⟩ ≠ 0 ∧ normalize ⟨3, 0, 4⟩ = vecScale (norm3 ⟨3, 0, 4⟩)⁻¹ ⟨3, 0, 4⟩) ∧
    (norm3 zeroVec = 0 ∧ normalize zeroVec = zeroVec) := by
  have hne : norm3 ⟨3, 0, 4⟩ ≠ 0 := by
    rw [norm3_v345]
    norm_num
  have hz : norm3 zeroVec = 0 := norm3_eq_zero.mpr rfl
  exact ⟨⟨hne, (normalize_guard_spec ⟨3, 0, 4⟩).1 hne⟩,
    ⟨hz, (normalize_guard_spec zeroVec).2.1 hz⟩⟩

/-- Claim C6: for every vector `b`, the angle computation applied to the
zero-length direction and `b` is well defined and returns exactly 90 degrees:
the zero vector normalizes to itself, its dot product with any vector is 0,
and the clamp-then-arccos pipeline maps 0 to 90 degrees. -/
theorem angle_between_zero_left (b : Vec3) :
    normalize zeroVec = zeroVec ∧
    dot (normalize zeroVec) (normalize b) = 0 ∧
    angle_between zeroVec b = 90 := by
  refine ⟨normalize_zeroVec, ?_, ?_⟩
  · rw [normalize_zeroVec]
    exact dot_zeroVec_left _
  · unfold angle_between
    rw [normalize_zeroVec, dot_zeroVec_left, clip_zero, Real.arccos_zero,
      rad2deg_pi_div_two]

/-- Claim C7: when `light_is_same` is true, `get_light_dirs` yields an
`(n_view, n_light, 3)`-shaped result in which every view's light-direction
set is the normalized shared input set. -/
theorem get_light_dirs_broadcast (para : Para) (dirs : List Vec3)
    (hdata : para.light_direction = .shared dirs) :
    ∃ ld, get_light_dirs para = .ok ld ∧ ld.length = para.n_view ∧
      ∀ row ∈ ld, row = dirs.map normalize ∧ row.length = dirs.length := by
  refine ⟨List.replicate para.n_view (dirs.map normalize), ?_, ?_, ?_⟩
  · simp only [get_light_dirs, hdata, List.map_replicate]
  · exact List.length_replicate _ _
  · intro row hrow
    have hr := List.eq_of_mem_replicate hrow
    exact ⟨hr, by rw [hr, List.length_map]⟩

/-- A four-view calibration set sharing three lights, for the broadcast
witness. -/
def para4 : Para := ⟨4, [pose_id], .shared [dirZ, dirZ, dirZ]⟩

theorem get_light_dirs_broadcast_witness :
    ∃ ld, get_light_dirs para4 = .ok ld ∧ ld.length = 4 ∧
      ∀ row ∈ ld, row = [dirZ, dirZ, dirZ].map normalize ∧ row.length = 3 :=
  get_light_dirs_broadcast para4 [dirZ, dirZ, dirZ] rfl

/-- Claim C9: the angle computation is scale-invariant in each argument for
every positive scalar, because both arguments are re-normalized internally
before the dot product. -/
theorem angle_between_scale_invariant (a b : Vec3) (c : ℝ) (hc : 0 < c) :
    angle_between (vecScale c a) b = angle_between a b ∧
    angle_between a (vecScale c b) = angle_between a b := by
  unfold angle_between
  rw [normalize_vecScale hc a, normalize_vecScale hc b]
  exact ⟨rfl, rfl⟩

theorem angle_between_scale_invariant_witness :
    (0:ℝ) < 2 ∧
    (angle_between (vecScale 2 dirZ) dirZ = angle_between dirZ dirZ ∧
      angle_between dirZ (vecScale 2 dirZ) = angle_between dirZ dirZ) :=
  ⟨by norm_num, angle_between_scale_invariant dirZ dirZ 2 (by norm_num)⟩

/-- Claim C8: for thresholds `t1 <= t2`, every pair returned by the search at
threshold `t1` is also returned at threshold `t2`: the result set is
non-decreasing in the threshold (and success at `t1` implies success at
`t2`, since only the angle comparisons depend on the threshold). -/
theorem find_pairs_threshold_mono (para : Para) (t1 t2 : ℝ)
    (ps1 : List ((ℕ × ℕ) × (ℕ × ℕ)))
    (hle : t1 ≤ t2) (h1 : find_pairs para t1 = .ok ps1) :
    ∃ ps2, find_pairs para t2 = .ok ps2 ∧ ∀ p ∈ ps1, p ∈ ps2 := by
  obtain ⟨cd, ld, nv, nl, hcd, hld, hs, hloop⟩ := find_pairs_ok_inv h1
  obtain ⟨hfil, hall⟩ := searchLoop_eq_ok hloop
  have hall2 : ∀ idx ∈ pairIndices nv nl,
      ∃ b, checkPair cd ld t2 idx.1.1 idx.1.2 idx.2.1 idx.2.2 = .ok b := by
    intro idx hm
    obtain ⟨b, hb⟩ := hall idx hm
    obtain ⟨ldi, cdj, ldj, cdi, e1, e2, e3, e4, _⟩ := checkPair_ok_iff.mp hb
    exact ⟨_, checkPair_ok_iff.mpr ⟨ldi, cdj, ldj, cdi, e1, e2, e3, e4, rfl⟩⟩
  refine ⟨(pairIndices nv nl).filter (acceptB cd ld t2), ?_, ?_⟩
  · rw [find_pairs_eq hcd hld hs]
    exact searchLoop_ok_of_all hall2
  · subst hfil
    intro p hp
    rw [List.mem_filter] at hp ⊢
    obtain ⟨hmem, hacc⟩ := hp
    refine ⟨hmem, ?_⟩
    obtain ⟨b, hb⟩ := hall p hmem
    have hbt : b = true := by simpa [acceptB, hb] using hacc
    obtain ⟨ldi, cdj, ldj, cdi, e1, e2, e3, e4, hbeq⟩ := checkPair_ok_iff.mp hb
    rw [hbt] at hbeq
    have hang := of_decide_eq_true hbeq.symm
    have hb2 : checkPair cd ld t2 p.1.1 p.1.2 p.2.1 p.2.2 =
        .ok (decide (angle_between ldi cdj ≤ t2 ∧ angle_between ldj cdi ≤ t2)) :=
      checkPair_ok_iff.mpr ⟨ldi, cdj, ldj, cdi, e1, e2, e3, e4, rfl⟩
    have ht2 : decide (angle_between ldi cdj ≤ t2 ∧ angle_between ldj cdi ≤ t2) = true :=
      decide_eq_true ⟨le_trans hang.1 hle, le_trans hang.2 hle⟩
    simp [acceptB, hb2, ht2]

theorem find_pairs_threshold_mono_witness :
    (31 / 2 : ℝ) ≤ 20 ∧
    ∃ ps2, find_pairs para2 20 = .ok ps2 ∧
      ∀ p ∈ ([((0, 0), (1, 0))] : List ((ℕ × ℕ) × (ℕ × ℕ))), p ∈ ps2 :=
  ⟨by norm_num, find_pairs_threshold_mono para2 (31 / 2) 20 [((0, 0), (1, 0))]
    (by norm_num) (find_pairs_para2 (by norm_num))⟩

/-- Claim C3: when `light_is_same` is false and the per-view light-direction
sets have differing lengths, the search fails with the shape-mismatch error
(numpy's `ValueError` from `np.asarray` on ragged input), raised in
`get_light_dirs` before the combinatorial loop runs, and yields no partial
result list. -/
theorem find_pairs_ragged (para : Para) (t : ℝ) (rows : List (List Vec3))
    (hdata : para.light_direction = .perView rows)
    (hragged : ∃ r1 ∈ rows, ∃ r2 ∈ rows, r1.length ≠ r2.length)
    (hposes : para.pose_c2w ≠ []) :
    find_pairs para t = .error .valueError := by
  have hld : get_light_dirs para = .error .valueError := by
    simp only [get_light_dirs, hdata]
    have hcond : ¬((rows.all fun row => row.length = (rows.headD []).length) = true) := by
      intro hall
      obtain ⟨r1, h1, r2, h2, hne⟩ := hragged
      have ha := List.all_eq_true.mp hall
      have e1 := of_decide_eq_true (ha r1 h1)
      have e2 := of_decide_eq_true (ha r2 h2)
      omega
    rw [if_neg hcond]
  rcases hpc : para.pose_c2w with _ | ⟨p, prest⟩
  · exact absurd hpc hposes
  have hcd : get_cam_dirs para.pose_c2w =
      .ok ((p :: prest).map fun q => normalize ⟨-(q 0 2), -(q 1 2), -(q 2 2)⟩) := by
    rw [hpc]
    rfl
  unfold find_pairs
  simp only [hcd, hld]

/-- A ragged per-view calibration set: view 0 has one light, view 1 has two. -/
def paraRagged : Para := ⟨2, [pose_id], .perView [[dirZ], [dirZ, dirZ]]⟩

theorem find_pairs_ragged_witness :
    find_pairs paraRagged (31 / 2) = .error .valueError :=
  find_pairs_ragged paraRagged (31 / 2) [[dirZ], [dirZ, dirZ]] rfl
    ⟨[dirZ], by simp, [dirZ, dirZ], by simp, by simp⟩ (by simp [paraRagged])

/-- A zero-view calibration set: no poses, one shared light. -/
def para0 : Para := ⟨0, [], .shared [dirZ]⟩

/-- A one-view calibration set. -/
def para1 : Para := ⟨1, [pose_id], .shared [dirZ]⟩

/-- Counterexample to claim C4 as stated: with zero views (an empty pose
sequence) the search does not return an empty pair list; slicing the empty
pose array in `get_cam_dirs` raises an index error. -/
theorem find_pairs_zero_views_counterexample :
    find_pairs para0 (31 / 2) = .error .indexError ∧
      ∀ ps, find_pairs para0 (31 / 2) ≠ .ok ps := by
  have h : find_pairs para0 (31 / 2) = .error .indexError := rfl
  refine ⟨h, fun ps hps => ?_⟩
  rw [h] at hps
  exact absurd hps (by simp)

/-- Claim C4 (amended): a calibration set with exactly one view yields an
empty pair list without error (in both the shared and the per-view light
layout), but with zero views (empty pose sequence) the search raises an
index error from slicing the empty pose array instead of returning empty. -/
theorem find_pairs_lt_two_views (para : Para) (t : ℝ) :
    (para.pose_c2w = [] → find_pairs para t = .error .indexError) ∧
    (∀ p dirs, para.pose_c2w = [p] → para.light_direction = .shared dirs →
      dirs ≠ [] → para.n_view = 1 → find_pairs para t = .ok []) ∧
    (∀ p row, para.pose_c2w = [p] → para.light_direction = .perView [row] →
      row ≠ [] → find_pairs para t = .ok []) := by
  refine ⟨?_, ?_, ?_⟩
  · intro h
    have hcd : get_cam_dirs para.pose_c2w = .error .indexError := by
      rw [h]
      rfl
    unfold find_pairs
    simp only [hcd]
  · intro p dirs hpc hdata hne hnv
    have hcd : get_cam_dirs para.pose_c2w =
        .ok [normalize ⟨-(p 0 2), -(p 1 2), -(p 2 2)⟩] := by
      rw [hpc]
      rfl
    have hld : get_light_dirs para = .ok [dirs.map normalize] := by
      simp only [get_light_dirs, hdata, hnv]
      rfl
    have hs : shape3 [dirs.map normalize] = .ok (1, dirs.length) := by
      simp [shape3, hne]
    rw [find_pairs_eq hcd hld hs, pairIndices_one]
    rfl
  · intro p row hpc hdata hne
    have hcd : get_cam_dirs para.pose_c2w =
        .ok [normalize ⟨-(p 0 2), -(p 1 2), -(p 2 2)⟩] := by
      rw [hpc]
      rfl
    have hld : get_light_dirs para = .ok [row.map normalize] := by
      simp only [get_light_dirs, hdata]
      have hcond : (([row] : List (List Vec3)).all fun r =>
          r.length = (([row] : List (List Vec3)).headD []).length) = true := by
        simp
      rw [if_pos hcond]
      rfl
    have hs : shape3 [row.map normalize] = .ok (1, row.length) := by
      simp [shape3, hne]
    rw [find_pairs_eq hcd hld hs, pairIndices_one]
    rfl

theorem find_pairs_lt_two_views_witness :
    find_pairs para1 (31 / 2) = .ok [] ∧
      find_pairs para0 (31 / 2) = .error .indexError :=
  ⟨(find_pairs_lt_two_views para1 (31 / 2)).2.1 pose_id [dirZ] rfl rfl (by simp) rfl,
   (find_pairs_lt_two_views para0 (31 / 2)).1 rfl⟩

/-- Claim C10: the search derives the view count from the leading dimension
of the resolved light-direction array, not from the pose sequence; when
`light_is_same` is false and the (uniform, nonempty) light array lists more
views than there are poses, the search faults with an out-of-bounds access
(`IndexError` at `cam_dirs[j]`) rather than a structural shape error. -/
theorem find_pairs_cam_oob (para : Para) (t : ℝ) (rows : List (List Vec3)) (nl : ℕ)
    (hdata : para.light_direction = .perView rows)
    (huni : ∀ r ∈ rows, r.length = nl) (hnl : 0 < nl)
    (hpos : para.pose_c2w ≠ [])
    (hlt : para.pose_c2w.length < rows.length) :
    find_pairs para t = .error .indexError := by
  rcases hpc : para.pose_c2w with _ | ⟨p, prest⟩
  · exact absurd hpc hpos
  have hcd : get_cam_dirs para.pose_c2w =
      .ok ((p :: prest).map fun q => normalize ⟨-(q 0 2), -(q 1 2), -(q 2 2)⟩) := by
    rw [hpc]
    rfl
  have hrlen : (p :: prest).length < rows.length := by
    rw [hpc] at hlt
    exact hlt
  rcases hrows : rows with _ | ⟨r0, rrest⟩
  · rw [hrows] at hrlen
    simp at hrlen
  have hr0mem : r0 ∈ rows := by
    rw [hrows]
    exact List.mem_cons_self _ _
  have hr0 : r0.length = nl := huni r0 hr0mem
  have hld : get_light_dirs para = .ok (rows.map fun row => row.map normalize) := by
    simp only [get_light_dirs, hdata]
    have hcond : (rows.all fun row => row.length = (rows.headD []).length) = true := by
      rw [List.all_eq_true]
      intro r hr
      have h1 := huni r hr
      have h2 : (rows.headD []).length = nl := by
        rw [hrows]
        simpa using hr0
      exact decide_eq_true (by rw [h1, h2])
    rw [if_pos hcond]
  have hs : shape3 (rows.map fun row => row.map normalize) = .ok (rows.length, nl) := by
    have hne0 : nl ≠ 0 := by omega
    rw [hrows]
    simp [shape3, hr0, hne0]
  rw [find_pairs_eq hcd hld hs]
  apply searchLoop_error_of_exists
  refine ⟨((0, 0), ((p :: prest).length, 0)), ?_, ?_⟩
  · exact mem_pairIndices.mpr ⟨by simp, hrlen, hnl, hnl⟩
  · exact checkPair_error_of_cam_oob (List.getElem?_eq_none (by simp))

/-- A per-view calibration set listing two light views but only one pose. -/
def paraC10 : Para := ⟨2, [pose_id], .perView [[dirZ], [dirZ]]⟩

theorem find_pairs_cam_oob_witness :
    find_pairs paraC10 (31 / 2) = .error .indexError :=
  find_pairs_cam_oob paraC10 (31 / 2) [[dirZ], [dirZ]] 1 rfl
    (fun r hr => by
      rcases List.mem_cons.mp hr with rfl | hr2
      · rfl
      · rcases List.mem_cons.mp hr2 with rfl | hr3
        · rfl
        · exact absurd hr3 (List.not_mem_nil r))
    (by norm_num) (by simp [paraC10]) (by simp [paraC10])

end Helmholtz
